import Mathlib

/-!
Verification of the FSDP state-dict conversion hooks of
`torch/distributed/fsdp/_state_dict_utils.py`.

A tensor's payload is modelled as a flat `List Int` of element values
(`Buf`); shape metadata is carried separately as a `List Nat`.  Machine
dtypes and device residency (`.cuda()`, `.cpu()`, `offload_to_cpu`) are
identity on payloads and are not modelled.  Python `assert` failures and
raised exceptions are modelled with `Except HookErr`.
-/

namespace FsdpStateDict

abbrev Buf := List Int

/-- Errors surfaced by the hooks.  Python assertion failures and raised
exceptions are mapped to the spec's error taxonomy where the spec names
them, and to the Python exception class otherwise. -/
inductive HookErr where
  | MultiShardUnsupported
  | ShapeMismatch
  | SizeMismatch
  | PaddingMismatch
  | UnshardedLayout
  | KeyError
  | ZeroDivision
  | IndexError
  | NoShard
  | GatherSizeMismatch
deriving DecidableEq, Repr

/-- Modelled from the spec (§3 ChunkLayout): the uniform per-rank chunk
size `ceil(full_numel / world_size)` used by the external
`FlatParamHandle._get_shard` / `torch.chunk` machinery, which is not part
of the source file under verification. -/
def csize (n ws : ℕ) : ℕ := (n + ws - 1) / ws

/-- The contiguous chunk of `b` owned by rank `r` under uniform chunk
size `c`, right-padded with zeros to length `c` (spec §3: `offset =
chunk_size * rank`, `valid_size = min(chunk_size, full_numel - offset)`,
`padding = chunk_size - valid_size`). -/
def chunkAt (b : Buf) (c r : ℕ) : Buf :=
  (b.drop (c * r)).take c ++ List.replicate (c - min c (b.length - c * r)) 0

/-- Modelled from the spec (§3 ChunkLayout, §4.5 step 2): the external
`FlatParamHandle._get_shard`, returning this rank's padded chunk of a
flat buffer together with the number of padding elements. -/
def get_shard (b : Buf) (r ws : ℕ) : Buf × ℕ :=
  let c := csize b.length ws
  (chunkAt b c r, c - min c (b.length - c * r))

/-! Local-mode hooks (`_local_post_state_dict_hook`,
`_local_pre_load_state_dict_hook`, source lines 312-395). -/

/-- A `Shard` of a `ShardedTensor`: a buffer region with its offset into
the logical buffer and the owning rank (`Shard.from_tensor_and_offsets`). -/
structure ShardDesc where
  tensor : Buf
  shard_offset : ℕ
  rank : ℕ
deriving DecidableEq, Repr

/-- The `ShardedTensor` produced by `init_from_local_shards` (external),
holding this process's local shards plus the logical size metadata. -/
structure STensor where
  shards : List ShardDesc
  full_numel : ℕ
deriving DecidableEq, Repr

/-- Source `_local_post_state_dict_hook` (lines 333-349), for a module
that has parameters: builds a `ShardedTensor` from this rank's
`flat_param` chunk.  `flat_param` is this rank's local chunk (including
its `shard_numel_padded` trailing padding elements); `full_numel` is
`flat_param._unpadded_unsharded_size.numel()`.  The shard offset is
computed from the un-narrowed length (source line 337); the tensor is
narrowed to the valid region only when both the valid size and the
padding are positive (source lines 339-340). -/
def local_post_state_dict_hook (flat_param : Buf) (shard_numel_padded full_numel rank : ℕ) :
    STensor :=
  let shard_offset := flat_param.length * rank
  let valid_data_size := flat_param.length - shard_numel_padded
  let narrowed :=
    if 0 < valid_data_size ∧ 0 < shard_numel_padded then flat_param.take valid_data_size
    else flat_param
  { shards := [⟨narrowed, shard_offset, rank⟩], full_numel := full_numel }

/-- Source `_local_pre_load_state_dict_hook` (lines 375-395), for a
module that has parameters: converts the incoming `ShardedTensor` back
to this rank's flat chunk.  `flat_param_numel` is the current
`flat_param.numel()` and `shard_numel_padded` its recorded padding.
The `assert len(shards)` (line 382) fails only when no shard is present;
with several shards the first is used and the rest are ignored.  When
the recorded padding is neither `0` nor the whole chunk, the loaded
buffer must be strictly smaller than the chunk (assert, line 390) and is
right-padded by `shard_numel_padded` zeros (line 394). -/
def local_pre_load_state_dict_hook (load : STensor)
    (flat_param_numel shard_numel_padded : ℕ) : Except HookErr Buf :=
  match load.shards with
  | [] => .error .NoShard
  | s :: _ =>
    let load_tensor := s.tensor
    if shard_numel_padded ≠ 0 ∧ shard_numel_padded ≠ flat_param_numel then
      if load_tensor.length < flat_param_numel then
        .ok (load_tensor ++ List.replicate shard_numel_padded 0)
      else .error .ShapeMismatch
    else .ok load_tensor

/-! Partitioned-mode restore (`_sharded_pre_load_state_dict_hook`,
source lines 456-539). -/

/-- Source lines 490-494: the expected per-rank chunk size,
`math.ceil(dim_0_size / world_size) * param_numel // dim_0_size`, where
`param_numel = param.size().numel()` and `dim_0_size = param.size()[0]`.
`param.size()[0]` on a 0-dimensional shape raises `IndexError`; a zero
`dim_0_size` (hence `full_numel = 0`) raises `ZeroDivisionError`, as
does a zero `world_size`. -/
def chunk_size_code (shape : List ℕ) (world_size : ℕ) : Except HookErr ℕ :=
  match shape with
  | [] => .error .IndexError
  | d0 :: _ =>
    if world_size = 0 then .error .ZeroDivision
    else if d0 = 0 then .error .ZeroDivision
    else .ok ((d0 + world_size - 1) / world_size * shape.prod / d0)

/-- One rank's input to the collective all-gather (source lines 486-503):
at most one local shard is allowed (assert, line 486); a present shard
is flattened and right-padded with zeros to the chunk size whenever
`num_padding = chunk_size - numel > 0` (lines 496-501); an absent shard
contributes a zero buffer of the chunk size (line 503). -/
def rank_local_input (shape : List ℕ) (world_size : ℕ) (shards : List Buf) :
    Except HookErr Buf :=
  if 2 ≤ shards.length then .error .MultiShardUnsupported
  else
    match chunk_size_code shape world_size with
    | .error e => .error e
    | .ok c =>
      match shards with
      | [s] =>
        if s.length < c then .ok (s ++ List.replicate (c - s.length) 0)
        else .ok s
      | _ => .ok (List.replicate c 0)

/-- The incoming partitioned descriptor for one parameter, viewed at the
whole-system level: the parameter's original (global) shape and, for
each rank in rank order, that rank's local shards as produced by the
external `_ext_pre_load_state_dict_transform`. -/
structure IncomingParam where
  shape : List ℕ
  rankShards : List (List Buf)
deriving DecidableEq, Repr

/-- Per-parameter collective reconstruction (source lines 484-508): every
rank computes its padded local input, the all-gather concatenates them
in rank order into the `chunk_size * world_size` receive buffer
(collective channel contract, spec §6; `all_gather_into_tensor` requires
every input to have exactly the chunk size), and the result is trimmed
to the parameter's true element count (`narrow(0, 0, param_numel)`,
line 508). -/
def gather_one (world_size : ℕ) (p : IncomingParam) : Except HookErr Buf :=
  match p.rankShards.mapM (rank_local_input p.shape world_size) with
  | .error e => .error e
  | .ok inputs =>
    match chunk_size_code p.shape world_size with
    | .error e => .error e
    | .ok c =>
      if inputs.all (fun bf => decide (bf.length = c)) then
        .ok (inputs.flatten.take p.shape.prod)
      else .error .GatherSizeMismatch

/-- The per-parameter loop of `_sharded_pre_load_state_dict_hook`
(source lines 475-509): iterate the module's parameter names in
declaration order, pop each incoming entry, skip names that are shared
aliases (lines 481-482), and for the rest record the loaded shape and
the gathered, trimmed tensor.  The third component records, in order,
the names for which a collective all-gather was issued. -/
def sharded_loop (shared_fqns : List String) (world_size : ℕ) :
    List (String × IncomingParam) → Except HookErr (List (List ℕ) × List Buf × List String)
  | [] => .ok ([], [], [])
  | (fqn, p) :: rest =>
    if shared_fqns.contains fqn then sharded_loop shared_fqns world_size rest
    else
      match gather_one world_size p with
      | .error e => .error e
      | .ok t =>
        match sharded_loop shared_fqns world_size rest with
        | .error e => .error e
        | .ok (shs, ts, gs) => .ok (p.shape :: shs, t :: ts, fqn :: gs)

/-- The module-side state consumed by the partitioned-mode restore. -/
structure SModule where
  has_params : Bool
  uses_sharded_strategy : Bool
  shared_fqns : List String
  flat_shapes : List (List ℕ)
  flat_numel : ℕ
  shard_numel_padded : ℕ
  rank : ℕ
  world_size : ℕ

/-- Source `_sharded_pre_load_state_dict_hook` (lines 456-539) for rank
`m.rank`: guard on parameters and sharding strategy (lines 466-473), run
the per-parameter loop, re-flatten the reconstructed tensors
(`FlatParamHandle.flatten_params`, external, modelled from spec §4.5
step 2 as concatenation in declaration order), re-derive this rank's
chunk and padding (`FlatParamHandle._get_shard`, external, modelled from
spec §3), then validate shapes (zip-wise, line 524), chunk numel
(line 529) and padding (line 533).  Returns the new flat chunk installed
into the state dict, or `none` when the module has no parameters. -/
def sharded_pre_load_state_dict_hook (m : SModule)
    (incoming : List (String × IncomingParam)) : Except HookErr (Option Buf) :=
  if m.has_params = false then .ok none
  else if m.uses_sharded_strategy = false then .error .UnshardedLayout
  else
    match sharded_loop m.shared_fqns m.world_size incoming with
    | .error e => .error e
    | .ok (loaded_shapes, tensors, _) =>
      let loaded_flat := tensors.flatten
      let sh := get_shard loaded_flat m.rank m.world_size
      if ¬ ((loaded_shapes.zip m.flat_shapes).all (fun q => decide (q.1 = q.2))) then
        .error .ShapeMismatch
      else if m.flat_numel ≠ sh.1.length then .error .SizeMismatch
      else if m.shard_numel_padded ≠ sh.2 then .error .PaddingMismatch
      else .ok (some sh.1)

/-! Full-mode save (`_full_post_state_dict_hook` via
`_common_summon_post_state_dict_hook`, source lines 118-278).

The state dict is modelled as an insertion-ordered association list
keyed by the cleaned fully-qualified name.  The structural-prefix
insertion/stripping (`_replace_by_prefix`, `clean_tensor_name`, the
activation-checkpoint prefix replace — all external to the source file)
is modelled as the identity on these cleaned names, per the spec §6 key
naming contract (the same transform is applied consistently on both
sides). -/

/-- A checkpoint value: its payload, the ad-hoc `_has_been_cloned`
marker, whether it is a detached fresh copy, and whether calling
`.clone()` on it raises (external failure such as storage exhaustion). -/
structure TVal where
  data : Buf
  has_been_cloned : Bool
  is_clone : Bool
  clone_fails : Bool
deriving DecidableEq, Repr

abbrev SDict := List (String × TVal)

def sdGet : SDict → String → Option TVal
  | [], _ => none
  | (k, v) :: rest, key => if k = key then some v else sdGet rest key

/-- Python `dict.pop`: removes the key (a no-op when absent; callers that
would raise `KeyError` check presence first). -/
def sdPop (sd : SDict) (k : String) : SDict :=
  sd.filter (fun q => decide (q.1 ≠ k))

/-- Python `dict.__setitem__`: replaces in place when present, else
appends (insertion order). -/
def sdSet (sd : SDict) (k : String) (v : TVal) : SDict :=
  if (sdGet sd k).isSome then
    sd.map (fun q => if q.1 = k then (k, v) else q)
  else sd ++ [(k, v)]

inductive SDType where
  | full | localT | sharded
deriving DecidableEq, Repr

/-- The module-side state consumed by the summon-based save hooks. -/
structure FModule where
  param_fqns : List String
  buffer_names : List String
  ignored_param_names : List String
  rank : ℕ
  use_orig_params : Bool
  cfg_rank0_only : Bool
  state_dict_type : SDType
  has_params : Bool
  params : String → TVal
  buffers : String → TVal

def FLAT_PARAM_KEY : String := "_flat_param"

/-- Source lines 146-149: `rank0_only` holds only for a
`FULL_STATE_DICT` with the `rank0_only` config flag set. -/
def rank0Only (m : FModule) : Bool :=
  decide (m.state_dict_type = SDType.full) && m.cfg_rank0_only

/-- Source line 152: this rank's output must keep only non-FSDP entries. -/
def noFsdpReturn (m : FModule) : Bool :=
  rank0Only m && decide (m.rank ≠ 0)

/-- Source `.clone().detach()` on a value whose clone succeeds: a fresh
copy of the payload, not yet marked. -/
def cloneDetach (v : TVal) : TVal :=
  { data := v.data, has_been_cloned := false, is_clone := true,
    clone_fails := v.clone_fails }

/-- The `inner_hook` of `_full_post_state_dict_hook` (source lines
247-276): clone a non-ignored, not-yet-cloned entry and mark it; a clone
failure is caught and converted to a warning, leaving the entry as the
original reference (lines 269-276).  `clean_tensor_name` prefix
stripping is the identity here (keys are already clean names). -/
def full_inner_hook (m : FModule) (sd : SDict) (fqn : String) : SDict :=
  let clean_key := fqn
  match sdGet sd fqn with
  | none => sd
  | some v =>
    if ¬ (clean_key ∈ m.ignored_param_names) ∧ v.has_been_cloned = false then
      if v.clone_fails then sd
      else sdSet sd fqn { cloneDetach v with has_been_cloned := true }
    else sd

/-- One iteration of the parameter loop (source lines 165-180): on a
dropping rank, pop the entry (`dict.pop` without default: `KeyError`
when absent, line 170); otherwise re-install the materialized parameter
(line 172) and run the inner hook. -/
def paramStep (m : FModule) (inner : SDict → String → SDict) (sd : SDict)
    (fqn : String) : Except HookErr SDict :=
  if noFsdpReturn m then
    if (sdGet sd fqn).isSome then .ok (sdPop sd fqn) else .error .KeyError
  else .ok (inner (sdSet sd fqn (m.params fqn)) fqn)

/-- One iteration of the buffer loop (source lines 189-203): skip
non-persistent (absent) buffers; on a dropping rank pop the entry,
otherwise re-install the buffer (CPU offload is identity on payloads). -/
def bufferStep (m : FModule) (sd : SDict) (name : String) : SDict :=
  if (sdGet sd name).isNone then sd
  else if noFsdpReturn m then sdPop sd name
  else sdSet sd name (m.buffers name)

/-- Source `_common_summon_post_state_dict_hook` (lines 118-205).  The
`_replace_by_prefix` renaming is the identity on cleaned keys.  Trivial
dicts and param-less modules return unchanged (line 132); when the
original parameters are not registered the `FlatParameter` entry is
popped (lines 139-140, `KeyError` when absent); a dropping rank without
original parameters pops only the buffer entries and returns early
(lines 153-161); otherwise the parameter loop and then the buffer loop
run. -/
def common_summon_post_state_dict_hook (m : FModule)
    (inner : SDict → String → SDict) (sd : SDict) : Except HookErr SDict :=
  if sd.isEmpty ∨ m.has_params = false then .ok sd
  else
    let popped : Except HookErr SDict :=
      if m.use_orig_params = false then
        if (sdGet sd FLAT_PARAM_KEY).isSome then .ok (sdPop sd FLAT_PARAM_KEY)
        else .error .KeyError
      else .ok sd
    match popped with
    | .error e => .error e
    | .ok sd1 =>
      if noFsdpReturn m = true ∧ m.use_orig_params = false then
        .ok (m.buffer_names.foldl (fun s n => sdPop s n) sd1)
      else
        match m.param_fqns.foldlM (paramStep m inner) sd1 with
        | .error e => .error e
        | .ok sd2 => .ok (m.buffer_names.foldl (bufferStep m) sd2)

/-- Source `_full_post_state_dict_hook` (lines 233-278): the common
summon hook instantiated with the cloning inner hook. -/
def full_post_state_dict_hook (m : FModule) (sd : SDict) : Except HookErr SDict :=
  common_summon_post_state_dict_hook m (full_inner_hook m) sd

/-! Save/restore round-trip compositions for the three modes. -/

/-- Modelled from the spec (§4.3 restore): the full-mode restore hook
enters the materialization scope with write-back; on scope exit the
updated full buffer is re-sharded into each rank's local chunk by the
external scope, i.e. by the chunk layout. -/
def full_pre_load_restore (b : Buf) (r ws : ℕ) : Buf := (get_shard b r ws).1

/-- Modelled from the spec (§4.5 save, §3 ChunkLayout): the external
`_ext_chunk_tensor` partition policy of the partitioned-mode save, at
whole-system level: the flattened parameter is cut into uniform chunks;
a rank whose chunk holds valid data gets that (unpadded) slice as its
single local shard, a rank holding only padding gets no shard. -/
def sharded_post_save_param (b : Buf) (ws : ℕ) : IncomingParam :=
  let c := csize b.length ws
  { shape := [b.length],
    rankShards := (List.range ws).map (fun r =>
      if 0 < min c (b.length - c * r) then [(b.drop (c * r)).take c] else []) }

/-- Local-mode save composed with local-mode restore on rank `r`, on a
module whose flat parameter currently holds rank `r`'s chunk of `b`. -/
def local_mode_roundtrip (b : Buf) (ws r : ℕ) : Except HookErr Buf :=
  let c := csize b.length ws
  let pad := c - min c (b.length - c * r)
  local_pre_load_state_dict_hook
    (local_post_state_dict_hook (chunkAt b c r) pad b.length r) c pad

/-- Partitioned-mode save composed with partitioned-mode restore on rank
`r`, on a module holding a single flattened parameter of `b.length`
elements. -/
def sharded_mode_roundtrip (b : Buf) (ws r : ℕ) : Except HookErr (Option Buf) :=
  let c := csize b.length ws
  sharded_pre_load_state_dict_hook
    { has_params := true, uses_sharded_strategy := true, shared_fqns := [],
      flat_shapes := [[b.length]], flat_numel := c,
      shard_numel_padded := c - min c (b.length - c * r), rank := r, world_size := ws }
    [("p", sharded_post_save_param b ws)]

/-- The per-rank all-gather input as described for one rank: a present
single shard right-padded with zeros to the chunk size, otherwise a zero
buffer of the chunk size. -/
def localPad (c : ℕ) : List Buf → Buf
  | [s] => s ++ List.replicate (c - s.length) 0
  | _ => List.replicate c 0

/-- A fresh, never-cloned checkpoint value whose clone succeeds. -/
def freshVal (b : Buf) : TVal :=
  { data := b, has_been_cloned := false, is_clone := false, clone_fails := false }

/-- A one-parameter full-mode module on rank 0 (no buffers, nothing
ignored), whose single materialized parameter is `b`. -/
def mFullOne (b : Buf) : FModule :=
  { param_fqns := ["p"], buffer_names := [], ignored_param_names := [],
    rank := 0, use_orig_params := true, cfg_rank0_only := false,
    state_dict_type := .full, has_params := true,
    params := fun _ => freshVal b, buffers := fun _ => freshVal [] }

/-- The value stored at a parameter key by the full-mode save path
(install the materialized parameter, then run the cloning inner hook). -/
def fullProcessed (m : FModule) (fqn : String) : TVal :=
  let v := m.params fqn
  if ¬ (fqn ∈ m.ignored_param_names) ∧ v.has_been_cloned = false then
    if v.clone_fails then v
    else { cloneDetach v with has_been_cloned := true }
  else v

/-- A two-rank full-mode module with `rank0_only` set, one parameter
`p` and one buffer `b`, on rank `r` (used to instantiate the
rank-restricted save behavior). -/
def mRank0Only (r : ℕ) : FModule :=
  { param_fqns := ["p"], buffer_names := ["b"], ignored_param_names := [],
    rank := r, use_orig_params := true, cfg_rank0_only := true,
    state_dict_type := .full, has_params := true,
    params := fun _ => freshVal [1], buffers := fun _ => freshVal [2] }

/-- A rank-0 full-mode module whose parameter `p`'s clone raises. -/
def mCloneFails : FModule :=
  { param_fqns := ["p"], buffer_names := [], ignored_param_names := [],
    rank := 0, use_orig_params := true, cfg_rank0_only := false,
    state_dict_type := .full, has_params := true,
    params := fun _ => { data := [1], has_been_cloned := false, is_clone := false,
                         clone_fails := true },
    buffers := fun _ => freshVal [] }

/-- A rank-0 full-mode module with one ignored parameter `q` and one
ordinary parameter `p`. -/
def mIgnored : FModule :=
  { param_fqns := ["p", "q"], buffer_names := [], ignored_param_names := ["q"],
    rank := 0, use_orig_params := true, cfg_rank0_only := false,
    state_dict_type := .full, has_params := true,
    params := fun f => if f = "q" then freshVal [7] else freshVal [8],
    buffers := fun _ => freshVal [] }

/-! Helper lemmas. -/

theorem le_csize_mul (n ws : ℕ) (h : 1 ≤ ws) : n ≤ csize n ws * ws := by
  unfold csize
  rcases Nat.eq_zero_or_pos n with hn | hn
  · simp [hn]
  · have hrw : n + ws - 1 = (n - 1) + ws := by omega
    rw [hrw, Nat.add_div_right _ h]
    have hlt : n - 1 < ((n - 1) / ws + 1) * ws := by
      have hd := Nat.div_add_mod (n - 1) ws
      have hm : (n - 1) % ws < ws := Nat.mod_lt _ (by omega)
      calc n - 1 = ws * ((n - 1) / ws) + (n - 1) % ws := hd.symm
        _ < ws * ((n - 1) / ws) + ws := by omega
        _ = ((n - 1) / ws + 1) * ws := by ring
    omega

theorem chunkAt_length (b : Buf) (c r : ℕ) : (chunkAt b c r).length = c := by
  simp [chunkAt, List.length_take, List.length_drop]

theorem chunkAt_succ (b : Buf) (c r : ℕ) :
    chunkAt b c (r + 1) = chunkAt (b.drop c) c r := by
  unfold chunkAt
  rw [List.drop_drop, List.length_drop]
  have h1 : c + c * r = c * (r + 1) := by ring
  have h2 : b.length - c - c * r = b.length - c * (r + 1) := by omega
  rw [h1, h2]

/-- Concatenating the per-rank padded chunks in rank order and trimming
to the logical length reproduces the original buffer. -/
theorem flatten_chunkAt_take (c : ℕ) :
    ∀ (k : ℕ) (b : Buf), b.length ≤ c * k →
      (((List.range k).map (fun r => chunkAt b c r)).flatten).take b.length = b := by
  intro k
  induction k with
  | zero =>
      intro b hb
      have : b = [] := by
        cases b with
        | nil => rfl
        | cons x xs => simp at hb
      subst this
      simp
  | succ k ih =>
      intro b hb
      rw [List.range_succ_eq_map]
      simp only [List.map_cons, List.map_map, List.flatten_cons]
      have hcomp : ∀ r : ℕ, chunkAt b c (Nat.succ r) = chunkAt (b.drop c) c r := by
        intro r
        exact chunkAt_succ b c r
      have hmap : (List.range k).map (fun r => chunkAt b c (Nat.succ r)) =
          (List.range k).map (fun r => chunkAt (b.drop c) c r) := by
        apply List.map_congr_left
        intro r _
        exact hcomp r
      rw [show ((List.range k).map (chunkAt b c ∘ Nat.succ)) =
          (List.range k).map (fun r => chunkAt b c (Nat.succ r)) from rfl, hmap]
      by_cases hle : b.length ≤ c
      · have htake : b.take c = b := List.take_of_length_le hle
        have hmin : min c b.length = b.length := by omega
        have hc0 : chunkAt b c 0 = b ++ List.replicate (c - b.length) 0 := by
          simp [chunkAt, htake, hmin]
        rw [hc0, List.append_assoc, List.take_append_eq_append_take]
        simp
      · push_neg at hle
        have hc0 : chunkAt b c 0 = b.take c := by
          have hmin : min c b.length = c := by omega
          simp [chunkAt, hmin]
        rw [hc0, List.take_append_eq_append_take]
        have hlen : (b.take c).length = c := by
          simp [List.length_take]; omega
        have htk : b.take (b.length) = b := List.take_of_length_le (by omega)
        have h1 : List.take b.length (b.take c) = b.take c := by
          apply List.take_of_length_le
          rw [hlen]; omega
        have h2 : ((List.range k).map (fun r => chunkAt (b.drop c) c r)).flatten.take
            (b.length - (b.take c).length) = b.drop c := by
          rw [hlen]
          have : (b.drop c).length = b.length - c := by simp [List.length_drop]
          have hck : c * (k + 1) = c * k + c := by ring
          have hrec := ih (b.drop c) (by rw [this]; omega)
          rw [this] at hrec
          exact hrec
        rw [h1, h2, List.take_append_drop]

theorem flatten_chunks_take (b : Buf) (ws : ℕ) (h : 1 ≤ ws) :
    (((List.range ws).map (fun r => chunkAt b (csize b.length ws) r)).flatten).take b.length
      = b :=
  flatten_chunkAt_take (csize b.length ws) ws b (le_csize_mul b.length ws h)

theorem local_roundtrip_general (v : Buf) (p fn r : ℕ) :
    local_pre_load_state_dict_hook
      (local_post_state_dict_hook (v ++ List.replicate p 0) p fn r)
      (v.length + p) p = .ok (v ++ List.replicate p 0) := by
  unfold local_post_state_dict_hook local_pre_load_state_dict_hook
  simp only [List.length_append, List.length_replicate]
  by_cases hp : 0 < p
  · by_cases hv : 0 < v.length
    · have hvd : v.length + p - p = v.length := by omega
      have hcond : 0 < v.length + p - p ∧ 0 < p := by omega
      rw [if_pos hcond, hvd]
      have htake : (v ++ List.replicate p 0).take v.length = v :=
        List.take_left v (List.replicate p (0 : Int))
      rw [htake]
      have hcond2 : p ≠ 0 ∧ p ≠ v.length + p := by omega
      rw [if_pos hcond2, if_pos (show v.length < v.length + p from by omega)]
    · have hv0 : v.length = 0 := by omega
      have hveq : v = [] := List.eq_nil_of_length_eq_zero hv0
      subst hveq
      simp
  · have hp0 : p = 0 := by omega
    subst hp0
    simp

theorem chunkAt_decomp (b : Buf) (c r : ℕ) :
    chunkAt b c r =
      (b.drop (c * r)).take c ++
        List.replicate (c - ((b.drop (c * r)).take c).length) 0 := by
  unfold chunkAt
  congr 2
  simp [List.length_take, List.length_drop]

theorem chunkAt_valid_len (b : Buf) (c r : ℕ) :
    ((b.drop (c * r)).take c).length = min c (b.length - c * r) := by
  simp [List.length_take, List.length_drop]

theorem mapM_ok_of_forall {α β : Type} (g : α → Except HookErr β) (h : α → β) :
    ∀ L : List α, (∀ a ∈ L, g a = .ok (h a)) → L.mapM g = .ok (L.map h) := by
  intro L
  induction L with
  | nil => intro _; simp [List.mapM_nil]; rfl
  | cons a L ih =>
      intro hall
      rw [List.mapM_cons, hall a (by simp)]
      rw [ih (fun x hx => hall x (by simp [hx]))]
      rfl

theorem mapM_map_ok {α β γ : Type} (f : α → β) (g : β → Except HookErr γ) (h : α → γ) :
    ∀ L : List α, (∀ a ∈ L, g (f a) = .ok (h a)) →
      (L.map f).mapM g = .ok (L.map h) := by
  intro L
  induction L with
  | nil => intro _; simp [List.mapM_nil]; rfl
  | cons a L ih =>
      intro hall
      rw [List.map_cons, List.mapM_cons, hall a (by simp)]
      rw [ih (fun x hx => hall x (by simp [hx]))]
      rfl

theorem chunkAt_of_valid_zero (b : Buf) (c r : ℕ)
    (h : min c (b.length - c * r) = 0) : chunkAt b c r = List.replicate c 0 := by
  rcases Nat.eq_zero_or_pos c with hc | hc
  · subst hc
    simp [chunkAt]
  · have hle : b.length ≤ c * r := by omega
    unfold chunkAt
    rw [List.drop_eq_nil_of_le hle]
    simp [h]

theorem chunk_size_code_single (n ws : ℕ) (hn : 1 ≤ n) (hws : 1 ≤ ws) :
    chunk_size_code [n] ws = .ok (csize n ws) := by
  unfold chunk_size_code
  simp only []
  rw [if_neg (by omega : ¬ ws = 0), if_neg (by omega : ¬ n = 0)]
  have hprod : ([n] : List ℕ).prod = n := by simp
  rw [hprod]
  rw [Nat.mul_div_cancel _ (by omega : 0 < n)]
  rfl

theorem rank_input_save (b : Buf) (ws r : ℕ) (hn : 1 ≤ b.length) (hws : 1 ≤ ws) :
    rank_local_input [b.length] ws
      (if 0 < min (csize b.length ws) (b.length - csize b.length ws * r)
        then [(b.drop (csize b.length ws * r)).take (csize b.length ws)] else [])
      = .ok (chunkAt b (csize b.length ws) r) := by
  set c := csize b.length ws with hc
  set valid := min c (b.length - c * r) with hvalid
  by_cases hv : 0 < valid
  · rw [if_pos hv]
    unfold rank_local_input
    rw [if_neg (by simp : ¬ 2 ≤ ([(b.drop (c * r)).take c] : List Buf).length)]
    rw [chunk_size_code_single b.length ws hn hws]
    simp only []
    have hlen : ((b.drop (c * r)).take c).length = valid := chunkAt_valid_len b c r
    by_cases hlt : ((b.drop (c * r)).take c).length < c
    · rw [if_pos hlt]
      rw [chunkAt_decomp b c r]
    · rw [if_neg hlt]
      have hvc : valid = c := by
        have : valid ≤ c := by omega
        omega
      rw [chunkAt_decomp b c r, hlen, hvc]
      simp
  · rw [if_neg hv]
    unfold rank_local_input
    rw [if_neg (by simp : ¬ 2 ≤ ([] : List Buf).length)]
    rw [chunk_size_code_single b.length ws hn hws]
    simp only []
    rw [chunkAt_of_valid_zero b c r (by omega)]

theorem gather_one_save (b : Buf) (ws : ℕ) (hn : 1 ≤ b.length) (hws : 1 ≤ ws) :
    gather_one ws (sharded_post_save_param b ws) = .ok b := by
  unfold gather_one sharded_post_save_param
  simp only
  set c := csize b.length ws with hc
  have hmapM := mapM_map_ok
    (fun r => if 0 < min c (b.length - c * r)
      then [(b.drop (c * r)).take c] else [])
    (rank_local_input [b.length] ws)
    (fun r => chunkAt b c r)
    (List.range ws)
    (fun r _ => rank_input_save b ws r hn hws)
  rw [hmapM]
  rw [chunk_size_code_single b.length ws hn hws]
  simp only []
  have hall : ((List.range ws).map (fun r => chunkAt b c r)).all
      (fun bf => decide (bf.length = c)) = true := by
    rw [List.all_eq_true]
    intro x hx
    rcases List.mem_map.1 hx with ⟨r, _, hr⟩
    subst hr
    simp [chunkAt_length]
  rw [if_pos hall]
  have hprod : ([b.length] : List ℕ).prod = b.length := by simp
  rw [hprod, flatten_chunks_take b ws hws]

theorem sharded_roundtrip_ok (b : Buf) (ws r : ℕ) (hn : 1 ≤ b.length) (hws : 1 ≤ ws) :
    sharded_mode_roundtrip b ws r = .ok (some (chunkAt b (csize b.length ws) r)) := by
  unfold sharded_mode_roundtrip sharded_pre_load_state_dict_hook
  simp only
  rw [if_neg (by simp : ¬ (true = false)), if_neg (by simp : ¬ (true = false))]
  have hloop : sharded_loop [] ws [("p", sharded_post_save_param b ws)]
      = .ok ([[b.length]], [b], ["p"]) := by
    unfold sharded_loop
    rw [if_neg (by simp : ¬ (([] : List String).contains "p" = true))]
    rw [gather_one_save b ws hn hws]
    rfl
  rw [hloop]
  simp only
  set c := csize b.length ws with hc
  have hflat : ([b] : List Buf).flatten = b := by simp
  rw [hflat]
  have hzip : (([[b.length]] : List (List ℕ)).zip [[b.length]]).all
      (fun q => decide (q.1 = q.2)) = true := by simp
  rw [if_neg (by simp [hzip] : ¬ ¬ (([[b.length]] : List (List ℕ)).zip [[b.length]]).all
      (fun q => decide (q.1 = q.2)) = true)]
  unfold get_shard
  simp only
  rw [if_neg (by simp [chunkAt_length] : ¬ c ≠ (chunkAt b c r).length)]
  rw [if_neg (by omega : ¬ (c - min c (b.length - c * r)) ≠ (c - min c (b.length - c * r)))]

theorem chunk_size_code_cons (d0 : ℕ) (rest : List ℕ) (ws : ℕ)
    (hd0 : 1 ≤ d0) (hws : 1 ≤ ws) :
    chunk_size_code (d0 :: rest) ws = .ok (csize d0 ws * rest.prod) := by
  unfold chunk_size_code
  simp only []
  rw [if_neg (by omega : ¬ ws = 0), if_neg (by omega : ¬ d0 = 0)]
  rw [List.prod_cons]
  have h2 : (d0 + ws - 1) / ws * (d0 * rest.prod)
      = d0 * ((d0 + ws - 1) / ws * rest.prod) := by ring
  rw [h2, Nat.mul_div_cancel_left _ (by omega : 0 < d0)]
  rfl

theorem prod_le_code_chunk_mul (d0 : ℕ) (rest : List ℕ) (ws : ℕ)
    (_hd0 : 1 ≤ d0) (hws : 1 ≤ ws) :
    ((d0 :: rest) : List ℕ).prod ≤ csize d0 ws * rest.prod * ws := by
  rw [List.prod_cons]
  have h1 : d0 ≤ csize d0 ws * ws := le_csize_mul d0 ws hws
  calc d0 * rest.prod ≤ csize d0 ws * ws * rest.prod :=
        Nat.mul_le_mul_right _ h1
    _ = csize d0 ws * rest.prod * ws := by ring

theorem local_roundtrip_ok (b : Buf) (ws r : ℕ) :
    local_mode_roundtrip b ws r = .ok (chunkAt b (csize b.length ws) r) := by
  unfold local_mode_roundtrip
  simp only []
  set c := csize b.length ws with hc
  set v := (b.drop (c * r)).take c with hv
  have hvlen : v.length = min c (b.length - c * r) := chunkAt_valid_len b c r
  have hdecomp : chunkAt b c r = v ++ List.replicate (c - v.length) 0 :=
    chunkAt_decomp b c r
  have hle : v.length ≤ c := by rw [hvlen]; omega
  have hcsum : c = v.length + (c - v.length) := by omega
  rw [hdecomp, ← hvlen]
  have hgen := local_roundtrip_general v (c - v.length) b.length r
  rw [← hcsum] at hgen
  exact hgen

theorem full_save_one (b : Buf) :
    full_post_state_dict_hook (mFullOne b) [("p", freshVal b)]
      = .ok [("p", { data := b, has_been_cloned := true, is_clone := true,
                     clone_fails := false })] := rfl

theorem rank_input_localPad (d0 : ℕ) (rest : List ℕ) (ws : ℕ)
    (hd0 : 1 ≤ d0) (hws : 1 ≤ ws) (sl : List Buf) (hsl : sl.length ≤ 1)
    (hs : ∀ s ∈ sl, s.length ≤ csize d0 ws * rest.prod) :
    rank_local_input (d0 :: rest) ws sl
      = .ok (localPad (csize d0 ws * rest.prod) sl) := by
  unfold rank_local_input
  rw [if_neg (by omega : ¬ 2 ≤ sl.length)]
  rw [chunk_size_code_cons d0 rest ws hd0 hws]
  simp only []
  set c := csize d0 ws * rest.prod with hcdef
  rcases sl with _ | ⟨s, _ | ⟨s2, tl⟩⟩
  · rfl
  · have hsc : s.length ≤ c := hs s (by simp)
    simp only []
    by_cases hlt : s.length < c
    · rw [if_pos hlt]
      rfl
    · rw [if_neg hlt]
      have hlp : localPad c [s] = s ++ List.replicate (c - s.length) 0 := rfl
      have heq : c - s.length = 0 := by omega
      rw [hlp, heq]
      simp
  · simp at hsl

theorem localPad_length (c : ℕ) (sl : List Buf)
    (hs : ∀ s ∈ sl, s.length ≤ c) : (localPad c sl).length = c := by
  rcases sl with _ | ⟨s, _ | ⟨s2, tl⟩⟩
  · simp [localPad]
  · have := hs s (by simp)
    simp [localPad]
    omega
  · simp [localPad]

theorem flatten_len_const (c : ℕ) :
    ∀ L : List Buf, (∀ x ∈ L, x.length = c) → L.flatten.length = c * L.length := by
  intro L
  induction L with
  | nil => intro _; simp
  | cons x L ih =>
      intro hall
      rw [List.flatten_cons, List.length_append, hall x (by simp),
        ih (fun y hy => hall y (by simp [hy]))]
      simp [List.length_cons]
      ring

theorem sharded_loop_gather_log (shared : List String) (ws : ℕ) :
    ∀ (pl : List (String × IncomingParam)) (shs : List (List ℕ)) (ts : List Buf)
      (gs : List String),
      sharded_loop shared ws pl = .ok (shs, ts, gs) →
      gs = (pl.map Prod.fst).filter (fun f => !(shared.contains f)) := by
  intro pl
  induction pl with
  | nil =>
      intro shs ts gs h
      unfold sharded_loop at h
      simp only [Except.ok.injEq, Prod.mk.injEq] at h
      rw [← h.2.2]
      simp
  | cons hd tl ih =>
      intro shs ts gs h
      rcases hd with ⟨fqn, p⟩
      unfold sharded_loop at h
      by_cases hcon : shared.contains fqn
      · rw [if_pos hcon] at h
        have hrec := ih shs ts gs h
        rw [List.map_cons, List.filter_cons]
        simp only [hcon, Bool.not_true, Bool.false_eq_true, if_false]
        exact hrec
      · rw [if_neg hcon] at h
        cases hg : gather_one ws p with
        | error e => rw [hg] at h; simp at h
        | ok t =>
            rw [hg] at h
            cases hrec : sharded_loop shared ws tl with
            | error e => rw [hrec] at h; simp at h
            | ok trip =>
                rw [hrec] at h
                rcases trip with ⟨a, bc⟩
                rcases bc with ⟨bb, cc⟩
                simp only [Except.ok.injEq, Prod.mk.injEq] at h
                rcases h with ⟨h1, h2, h3⟩
                rw [← h3, List.map_cons, List.filter_cons]
                simp only [hcon, Bool.not_false, if_true]
                rw [ih a bb cc hrec]

theorem zip_all_eq_iff :
    ∀ (l1 l2 : List (List ℕ)), l1.length = l2.length →
      (((l1.zip l2).all (fun q => decide (q.1 = q.2))) = true ↔ l1 = l2) := by
  intro l1
  induction l1 with
  | nil =>
      intro l2 hl
      cases l2 with
      | nil => simp
      | cons y ys => simp at hl
  | cons x xs ih =>
      intro l2 hl
      cases l2 with
      | nil => simp at hl
      | cons y ys =>
          simp only [List.zip_cons_cons, List.all_cons, Bool.and_eq_true,
            decide_eq_true_eq, List.cons.injEq]
          constructor
          · rintro ⟨h1, h2⟩
            exact ⟨h1, (ih ys (by simpa using hl)).1 h2⟩
          · rintro ⟨h1, h2⟩
            exact ⟨h1, (ih ys (by simpa using hl)).2 h2⟩

/-! Dictionary lemmas for the full-mode save. -/

theorem sdGet_append (l1 l2 : SDict) (k : String) :
    sdGet (l1 ++ l2) k
      = match sdGet l1 k with | some v => some v | none => sdGet l2 k := by
  induction l1 with
  | nil => simp [sdGet]
  | cons a rest ih =>
      rcases a with ⟨ak, av⟩
      by_cases h : ak = k
      · simp [sdGet, h]
      · simp only [List.cons_append, sdGet, h, if_false]
        exact ih

theorem sdGet_sdPop (sd : SDict) (k k2 : String) :
    sdGet (sdPop sd k) k2 = if k2 = k then none else sdGet sd k2 := by
  induction sd with
  | nil => by_cases h : k2 = k <;> simp [sdPop, sdGet, h]
  | cons a rest ih =>
      rcases a with ⟨ak, av⟩
      unfold sdPop
      rw [List.filter_cons]
      by_cases hak : ak = k
      · have hd : decide (ak ≠ k) = false := by simp [hak]
        rw [hd]
        simp only [Bool.false_eq_true, if_false]
        unfold sdPop at ih
        rw [ih]
        by_cases h2 : k2 = k
        · simp [h2]
        · rw [if_neg h2, if_neg h2]
          have : ¬ ak = k2 := by rw [hak]; exact fun hc => h2 hc.symm
          simp [sdGet, this]
      · have hd : decide (ak ≠ k) = true := by simp [hak]
        rw [hd]
        simp only [if_true]
        by_cases hak2 : ak = k2
        · have hk2 : ¬ k2 = k := by rw [← hak2]; exact fun hc => hak hc
          simp [sdGet, hak2, hk2]
        · unfold sdPop at ih
          simp only [sdGet, hak2, if_false, ih, if_neg hak2]

theorem sdGet_map_replace (k k2 : String) (v : TVal) :
    ∀ sd : SDict,
      sdGet (sd.map (fun q => if q.1 = k then (k, v) else q)) k2
        = if k2 = k then (if (sdGet sd k).isSome then some v else none)
          else sdGet sd k2 := by
  intro sd
  induction sd with
  | nil => by_cases h : k2 = k <;> simp [sdGet, h]
  | cons a rest ih =>
      rcases a with ⟨ak, av⟩
      rw [List.map_cons]
      by_cases hak : ak = k
      · simp only [hak, if_pos rfl]
        by_cases h2 : k2 = k
        · simp [sdGet, h2, hak]
        · have hk2 : ¬ k = k2 := fun hc => h2 hc.symm
          have hne : ¬ ak = k2 := by rw [hak]; exact hk2
          simp [sdGet, hk2, hne, ih, h2]
      · simp only [if_neg hak]
        by_cases hak2 : ak = k2
        · have h2 : ¬ k2 = k := by rw [← hak2]; exact fun hc => hak hc
          simp [sdGet, hak2, h2]
        · simp only [sdGet, hak2, if_false, ih]
          by_cases h2 : k2 = k
          · simp only [h2, if_pos rfl]
            have hne : ¬ ak = k := hak
            simp [sdGet, hne]
          · simp [h2]

theorem sdGet_sdSet (sd : SDict) (k k2 : String) (v : TVal) :
    sdGet (sdSet sd k v) k2 = if k2 = k then some v else sdGet sd k2 := by
  unfold sdSet
  by_cases hs : (sdGet sd k).isSome
  · rw [if_pos hs, sdGet_map_replace k k2 v sd]
    by_cases h2 : k2 = k
    · simp [h2, hs]
    · simp [h2]
  · rw [if_neg hs, sdGet_append]
    by_cases h2 : k2 = k
    · subst h2
      have hnone : sdGet sd k2 = none := by
        cases hg : sdGet sd k2
        · rfl
        · rw [hg] at hs; simp at hs
      rw [hnone]
      simp [sdGet]
    · rw [if_neg h2]
      cases hg : sdGet sd k2
      · have hk : ¬ k = k2 := fun hc => h2 hc.symm
        simp [sdGet, hk]
      · simp

/-! Effect of one keep-mode parameter-loop iteration, and of the loop
folds, on the dictionary. -/

theorem full_inner_step_get (m : FModule) (sd : SDict) (fqn k2 : String) :
    sdGet (full_inner_hook m (sdSet sd fqn (m.params fqn)) fqn) k2
      = if k2 = fqn then some (fullProcessed m fqn) else sdGet sd k2 := by
  unfold full_inner_hook fullProcessed
  have hget : sdGet (sdSet sd fqn (m.params fqn)) fqn = some (m.params fqn) := by
    rw [sdGet_sdSet]; simp
  rw [hget]
  simp only []
  by_cases hcond : ¬ (fqn ∈ m.ignored_param_names) ∧ (m.params fqn).has_been_cloned = false
  · rw [if_pos hcond, if_pos hcond]
    by_cases hfail : (m.params fqn).clone_fails
    · rw [if_pos hfail, if_pos hfail, sdGet_sdSet]
    · rw [if_neg hfail, if_neg hfail, sdGet_sdSet, sdGet_sdSet]
      by_cases h2 : k2 = fqn <;> simp [h2]
  · rw [if_neg hcond, if_neg hcond, sdGet_sdSet]

theorem params_fold_keep_get (m : FModule) :
    ∀ (L : List String) (sd : SDict) (k : String),
      sdGet (L.foldl (fun s f => full_inner_hook m (sdSet s f (m.params f)) f) sd) k
        = if k ∈ L then some (fullProcessed m k) else sdGet sd k := by
  intro L
  induction L with
  | nil => intro sd k; simp
  | cons f L ih =>
      intro sd k
      rw [List.foldl_cons, ih]
      by_cases hkL : k ∈ L
      · simp [hkL]
      · rw [if_neg hkL, full_inner_step_get]
        by_cases hkf : k = f
        · subst hkf
          simp
        · simp [hkf, hkL]

theorem foldlM_of_ok (step : SDict → String → SDict) :
    ∀ (L : List String) (sd : SDict),
      (L.foldlM (fun s f => (.ok (step s f) : Except HookErr SDict)) sd)
        = .ok (L.foldl step sd) := by
  intro L
  induction L with
  | nil => intro sd; rfl
  | cons f L ih => intro sd; rw [List.foldl_cons]; exact ih (step sd f)

theorem params_foldlM_keep (m : FModule) (hno : noFsdpReturn m = false) :
    ∀ (L : List String) (sd : SDict),
      L.foldlM (paramStep m (full_inner_hook m)) sd
        = .ok (L.foldl (fun s f => full_inner_hook m (sdSet s f (m.params f)) f) sd) := by
  have hstep : paramStep m (full_inner_hook m)
      = fun s f => .ok (full_inner_hook m (sdSet s f (m.params f)) f) := by
    funext s f
    unfold paramStep
    rw [hno]
    simp
  rw [hstep]
  exact foldlM_of_ok _

theorem params_foldlM_drop (m : FModule) (inner : SDict → String → SDict)
    (hno : noFsdpReturn m = true) :
    ∀ (L : List String) (sd : SDict), L.Nodup →
      (∀ f ∈ L, (sdGet sd f).isSome) →
      ∃ out, L.foldlM (paramStep m inner) sd = .ok out
        ∧ ∀ k, sdGet out k = if k ∈ L then none else sdGet sd k := by
  intro L
  induction L with
  | nil =>
      intro sd _ _
      exact ⟨sd, rfl, fun k => by simp⟩
  | cons f L ih =>
      intro sd hnd hpres
      have hstep : paramStep m inner sd f = .ok (sdPop sd f) := by
        unfold paramStep
        rw [hno]
        simp only [if_true]
        rw [if_pos (hpres f (by simp))]
      have hpres2 : ∀ g ∈ L, (sdGet (sdPop sd f) g).isSome := by
        intro g hg
        rw [sdGet_sdPop]
        have hgf : ¬ g = f := by
          intro hc
          subst hc
          exact (List.nodup_cons.1 hnd).1 hg
        rw [if_neg hgf]
        exact hpres g (by simp [hg])
      rcases ih (sdPop sd f) (List.nodup_cons.1 hnd).2 hpres2 with ⟨out, hout, hchar⟩
      refine ⟨out, ?_, ?_⟩
      · show ((paramStep m inner sd f) >>= fun s => L.foldlM (paramStep m inner) s)
            = .ok out
        rw [hstep]
        exact hout
      · intro k
        rw [hchar k, sdGet_sdPop]
        by_cases hkL : k ∈ L
        · simp [hkL]
        · by_cases hkf : k = f
          · simp [hkf, hkL]
          · simp [hkf, hkL]

theorem pops_fold_get :
    ∀ (L : List String) (sd : SDict) (k : String),
      sdGet (L.foldl (fun s n => sdPop s n) sd) k
        = if k ∈ L then none else sdGet sd k := by
  intro L
  induction L with
  | nil => intro sd k; simp
  | cons n L ih =>
      intro sd k
      rw [List.foldl_cons, ih]
      by_cases hkL : k ∈ L
      · simp [hkL]
      · rw [if_neg hkL, sdGet_sdPop]
        by_cases hkn : k = n
        · simp [hkn]
        · simp [hkn, hkL]

theorem bufferStep_get_drop (m : FModule) (hno : noFsdpReturn m = true)
    (sd : SDict) (n k : String) :
    sdGet (bufferStep m sd n) k = if k = n then none else sdGet sd k := by
  unfold bufferStep
  by_cases hpr : (sdGet sd n).isNone
  · rw [if_pos hpr]
    by_cases hkn : k = n
    · subst hkn
      rw [if_pos rfl]
      exact Option.isNone_iff_eq_none.1 hpr
    · rw [if_neg hkn]
  · rw [if_neg hpr, hno]
    simp only [if_true]
    rw [sdGet_sdPop]

theorem buffers_fold_drop_get (m : FModule) (hno : noFsdpReturn m = true) :
    ∀ (L : List String) (sd : SDict) (k : String),
      sdGet (L.foldl (bufferStep m) sd) k = if k ∈ L then none else sdGet sd k := by
  intro L
  induction L with
  | nil => intro sd k; simp
  | cons n L ih =>
      intro sd k
      rw [List.foldl_cons, ih]
      by_cases hkL : k ∈ L
      · simp [hkL]
      · rw [if_neg hkL, bufferStep_get_drop m hno]
        by_cases hkn : k = n
        · simp [hkn]
        · simp [hkn, hkL]

theorem bufferStep_get_other (m : FModule) (sd : SDict) (n k : String)
    (hkn : k ≠ n) : sdGet (bufferStep m sd n) k = sdGet sd k := by
  unfold bufferStep
  by_cases hpr : (sdGet sd n).isNone
  · rw [if_pos hpr]
  · rw [if_neg hpr]
    by_cases hno : noFsdpReturn m
    · rw [if_pos hno, sdGet_sdPop, if_neg hkn]
    · rw [if_neg hno, sdGet_sdSet, if_neg hkn]

theorem buffers_fold_get_other (m : FModule) :
    ∀ (L : List String) (sd : SDict) (k : String), k ∉ L →
      sdGet (L.foldl (bufferStep m) sd) k = sdGet sd k := by
  intro L
  induction L with
  | nil => intro sd k _; rfl
  | cons n L ih =>
      intro sd k hk
      rw [List.foldl_cons, ih _ _ (fun hc => hk (by simp [hc]))]
      exact bufferStep_get_other m sd n k (fun hc => hk (by simp [hc]))

theorem bufferStep_isSome_mono (m : FModule) (hno : noFsdpReturn m = false)
    (sd : SDict) (n k : String) (h : (sdGet sd k).isSome) :
    (sdGet (bufferStep m sd n) k).isSome := by
  unfold bufferStep
  by_cases hpr : (sdGet sd n).isNone
  · rw [if_pos hpr]; exact h
  · rw [if_neg hpr, hno]
    simp only [Bool.false_eq_true, if_false]
    rw [sdGet_sdSet]
    by_cases hkn : k = n
    · simp [hkn]
    · rw [if_neg hkn]; exact h

theorem buffers_fold_isSome_mono (m : FModule) (hno : noFsdpReturn m = false) :
    ∀ (L : List String) (sd : SDict) (k : String),
      (sdGet sd k).isSome → (sdGet (L.foldl (bufferStep m) sd) k).isSome := by
  intro L
  induction L with
  | nil => intro sd k h; exact h
  | cons n L ih =>
      intro sd k h
      rw [List.foldl_cons]
      exact ih _ k (bufferStep_isSome_mono m hno sd n k h)

/-! Claim theorems. -/

/-- Claim C1 (amended): for every `world_size ≥ 1`, composing each
mode's save hook with the matching restore hook reproduces the original
logical parameter buffer bit-for-bit — each rank recovers exactly its
chunk, and concatenating the per-rank chunks in rank order and trimming
to `full_numel` yields the original buffer — for the full and local
modes for every `full_numel ≥ 0`, and for the partitioned mode for every
`full_numel ≥ 1` (at `full_numel = 0` the partitioned restore's
chunk-size computation divides by zero, so that round-trip fails). -/
theorem claim_C1_roundtrip (b : Buf) (ws : ℕ) (hws : 1 ≤ ws) :
    (full_post_state_dict_hook (mFullOne b) [("p", freshVal b)]
        = .ok [("p", { data := b, has_been_cloned := true, is_clone := true,
                       clone_fails := false })]
      ∧ (((List.range ws).map (fun r => full_pre_load_restore b r ws)).flatten).take
          b.length = b)
    ∧ ((∀ r, local_mode_roundtrip b ws r
          = .ok (chunkAt b (csize b.length ws) r))
      ∧ (((List.range ws).map (fun r => chunkAt b (csize b.length ws) r)).flatten).take
          b.length = b)
    ∧ (1 ≤ b.length → ∀ r, sharded_mode_roundtrip b ws r
          = .ok (some (chunkAt b (csize b.length ws) r))) := by
  refine ⟨⟨full_save_one b, ?_⟩,
    ⟨fun r => local_roundtrip_ok b ws r, flatten_chunks_take b ws hws⟩,
    fun hn r => sharded_roundtrip_ok b ws r hn hws⟩
  have hfr : (fun r => full_pre_load_restore b r ws)
      = fun r => chunkAt b (csize b.length ws) r := rfl
  rw [hfr]
  exact flatten_chunks_take b ws hws

theorem claim_C1_roundtrip_witness :
    local_mode_roundtrip [10, 20, 30, 40, 50, 60, 70, 80, 90, 100] 3 2
        = .ok [90, 100, 0, 0]
      ∧ sharded_mode_roundtrip [10, 20, 30, 40, 50, 60, 70, 80, 90, 100] 3 2
        = .ok (some [90, 100, 0, 0]) := by
  have h := claim_C1_roundtrip [10, 20, 30, 40, 50, 60, 70, 80, 90, 100] 3 (by decide)
  exact ⟨h.2.1.1 2, h.2.2 (by decide) 2⟩

theorem claim_C1_roundtrip_counterexample :
    sharded_mode_roundtrip [] 1 0 = .error .ZeroDivision := rfl

/-- Claim C2 (amended): the partitioned-mode restore computes the
expected per-rank chunk size from the parameter's shape, not from its
total element count alone: `chunk_size = ceil(dim_0 / world_size) *
(numel / dim_0)`, which requires `dim_0 ≥ 1` (at `dim_0 = 0`, hence
`full_numel = 0`, the computation raises `ZeroDivisionError`).  The
result does not depend on the rank, so it is uniform across ranks, and
it satisfies `chunk_size * world_size ≥ full_numel`; it coincides with
`ceil(full_numel / world_size)` for 1-D parameters. -/
theorem claim_C2_chunk_size (d0 : ℕ) (rest : List ℕ) (ws : ℕ)
    (hd0 : 1 ≤ d0) (hws : 1 ≤ ws) :
    chunk_size_code (d0 :: rest) ws = .ok (csize d0 ws * rest.prod)
      ∧ ((d0 :: rest) : List ℕ).prod ≤ csize d0 ws * rest.prod * ws
      ∧ (rest = [] →
          csize d0 ws * rest.prod = csize (((d0 :: rest) : List ℕ).prod) ws) := by
  refine ⟨chunk_size_code_cons d0 rest ws hd0 hws,
    prod_le_code_chunk_mul d0 rest ws hd0 hws, ?_⟩
  intro hrest
  subst hrest
  simp

theorem claim_C2_chunk_size_witness :
    chunk_size_code [3, 2] 2 = .ok (csize 3 2 * ([2] : List ℕ).prod) :=
  (claim_C2_chunk_size 3 [2] 2 (by decide) (by decide)).1

theorem claim_C2_chunk_size_counterexample :
    chunk_size_code [3, 2] 2 = .ok 4 ∧ (4 : ℕ) ≠ csize (([3, 2] : List ℕ).prod) 2 :=
  ⟨rfl, by decide⟩

/-- Claim C3 (amended): on local-mode restore, when this rank's recorded
padding `p` is neither `0` nor the whole chunk: an incoming buffer
shorter than the chunk numel is zero-padded on the right by exactly `p`
(reaching the expected chunk size exactly when the buffer holds the
rank's valid size), and an incoming buffer of length at least the chunk
numel fails with `ShapeMismatch`; when `p` is `0` or equals the chunk
numel, the buffer is passed through unchanged regardless of its
length. -/
theorem claim_C3_local_restore_padding (load : Buf) (off rk full fn p : ℕ) :
    (p ≠ 0 → p ≠ fn →
      ((load.length < fn →
        local_pre_load_state_dict_hook ⟨[⟨load, off, rk⟩], full⟩ fn p
          = .ok (load ++ List.replicate p 0))
      ∧ (fn ≤ load.length →
        local_pre_load_state_dict_hook ⟨[⟨load, off, rk⟩], full⟩ fn p
          = .error .ShapeMismatch)))
    ∧ ((p = 0 ∨ p = fn) →
      local_pre_load_state_dict_hook ⟨[⟨load, off, rk⟩], full⟩ fn p = .ok load) := by
  unfold local_pre_load_state_dict_hook
  simp only []
  constructor
  · intro hp0 hpf
    constructor
    · intro hlt
      rw [if_pos ⟨hp0, hpf⟩, if_pos hlt]
    · intro hge
      rw [if_pos ⟨hp0, hpf⟩, if_neg (by omega)]
  · intro hor
    have hneg : ¬ (p ≠ 0 ∧ p ≠ fn) := by
      rcases hor with h | h
      · exact fun hcon => hcon.1 h
      · exact fun hcon => hcon.2 h
    rw [if_neg hneg]

theorem claim_C3_local_restore_padding_witness :
    local_pre_load_state_dict_hook ⟨[⟨[5, 6, 7], 0, 0⟩], 4⟩ 4 1
      = .ok ([5, 6, 7] ++ List.replicate 1 0) :=
  ((claim_C3_local_restore_padding [5, 6, 7] 0 0 4 4 1).1
    (by decide) (by decide)).1 (by decide)

theorem claim_C3_local_restore_padding_counterexample :
    local_pre_load_state_dict_hook ⟨[⟨[5, 6], 0, 0⟩], 4⟩ 4 1 = .ok [5, 6, 0]
      ∧ ([5, 6, 0] : Buf).length ≠ 4
      ∧ local_pre_load_state_dict_hook ⟨[⟨[1, 2, 3, 4, 5, 6], 0, 0⟩], 4⟩ 4 0
          = .ok [1, 2, 3, 4, 5, 6] :=
  ⟨rfl, by decide, rfl⟩

/-- Claim C4 (confirmed): at the end of a partitioned-mode restore the
reconstructed shapes must equal the recorded original shapes or the
restore fails with `ShapeMismatch`; then the reconstructed local chunk's
element count must equal the currently-held chunk's element count or it
fails with `SizeMismatch`; then the reconstructed padding must equal the
currently-held padding or it fails with `PaddingMismatch`; only when all
three agree is the derived chunk installed, exactly as derived (never
truncated or extended).  The hypothesis `hlen` is the module invariant
that the number of owned non-shared parameters equals the number of
recorded per-parameter shapes (the source compares shapes zip-wise). -/
theorem claim_C4_validation (m : SModule) (incoming : List (String × IncomingParam))
    (shs : List (List ℕ)) (ts : List Buf) (gs : List String)
    (hp : m.has_params = true) (hst : m.uses_sharded_strategy = true)
    (hloop : sharded_loop m.shared_fqns m.world_size incoming = .ok (shs, ts, gs))
    (hlen : shs.length = m.flat_shapes.length) :
    (shs ≠ m.flat_shapes →
      sharded_pre_load_state_dict_hook m incoming = .error .ShapeMismatch)
    ∧ (shs = m.flat_shapes →
       m.flat_numel ≠ (get_shard ts.flatten m.rank m.world_size).1.length →
      sharded_pre_load_state_dict_hook m incoming = .error .SizeMismatch)
    ∧ (shs = m.flat_shapes →
       m.flat_numel = (get_shard ts.flatten m.rank m.world_size).1.length →
       m.shard_numel_padded ≠ (get_shard ts.flatten m.rank m.world_size).2 →
      sharded_pre_load_state_dict_hook m incoming = .error .PaddingMismatch)
    ∧ (shs = m.flat_shapes →
       m.flat_numel = (get_shard ts.flatten m.rank m.world_size).1.length →
       m.shard_numel_padded = (get_shard ts.flatten m.rank m.world_size).2 →
      sharded_pre_load_state_dict_hook m incoming
        = .ok (some (get_shard ts.flatten m.rank m.world_size).1)) := by
  unfold sharded_pre_load_state_dict_hook
  rw [hp, hst, hloop]
  rw [if_neg (by simp : ¬ (true = false)), if_neg (by simp : ¬ (true = false))]
  simp only []
  refine ⟨?_, ?_, ?_, ?_⟩
  · intro hne
    rw [if_pos (fun hall => hne ((zip_all_eq_iff shs m.flat_shapes hlen).1 hall))]
  · intro heq hnum
    rw [if_neg (not_not_intro ((zip_all_eq_iff shs m.flat_shapes hlen).2 heq))]
    rw [if_pos hnum]
  · intro heq hnum hpad
    rw [if_neg (not_not_intro ((zip_all_eq_iff shs m.flat_shapes hlen).2 heq))]
    rw [if_neg (by omega : ¬ m.flat_numel ≠ (get_shard ts.flatten m.rank m.world_size).1.length)]
    rw [if_pos hpad]
  · intro heq hnum hpad
    rw [if_neg (not_not_intro ((zip_all_eq_iff shs m.flat_shapes hlen).2 heq))]
    rw [if_neg (by omega : ¬ m.flat_numel ≠ (get_shard ts.flatten m.rank m.world_size).1.length)]
    rw [if_neg (by omega : ¬ m.shard_numel_padded ≠ (get_shard ts.flatten m.rank m.world_size).2)]

theorem claim_C4_validation_witness :
    sharded_pre_load_state_dict_hook ⟨true, true, [], [[3]], 0, 0, 0, 1⟩
      [("p", ⟨[2], [[[1, 2]]]⟩)] = .error .ShapeMismatch :=
  (claim_C4_validation ⟨true, true, [], [[3]], 0, 0, 0, 1⟩
    [("p", ⟨[2], [[[1, 2]]]⟩)] [[2]] [[1, 2]] ["p"]
    rfl rfl rfl (by decide)).1 (by decide)

/-- Claim C5 (confirmed): in the partitioned-mode restore, for a
parameter whose per-rank inputs each hold at most one shard no larger
than the chunk size: a rank's present shard is right-padded with zeros
to the chunk size and an absent one contributes a zero buffer of the
chunk size; the all-gather receive buffer holds exactly `chunk_size *
world_size` elements (rank `r`'s contribution at offset `r *
chunk_size`); and the gathered buffer is trimmed to the parameter's true
total element count. -/
theorem claim_C5_gather_shape (d0 : ℕ) (rest : List ℕ) (ws : ℕ)
    (rankShards : List (List Buf))
    (hd0 : 1 ≤ d0) (hws : 1 ≤ ws) (hcount : rankShards.length = ws)
    (hone : ∀ sl ∈ rankShards, sl.length ≤ 1)
    (hsz : ∀ sl ∈ rankShards, ∀ s ∈ sl, s.length ≤ csize d0 ws * rest.prod) :
    rankShards.mapM (rank_local_input (d0 :: rest) ws)
        = .ok (rankShards.map (localPad (csize d0 ws * rest.prod)))
      ∧ (rankShards.map (localPad (csize d0 ws * rest.prod))).flatten.length
        = csize d0 ws * rest.prod * ws
      ∧ gather_one ws ⟨d0 :: rest, rankShards⟩
        = .ok ((rankShards.map (localPad (csize d0 ws * rest.prod))).flatten.take
            (((d0 :: rest) : List ℕ).prod))
      ∧ ((rankShards.map (localPad (csize d0 ws * rest.prod))).flatten.take
            (((d0 :: rest) : List ℕ).prod)).length
        = ((d0 :: rest) : List ℕ).prod := by
  set c := csize d0 ws * rest.prod with hcdef
  have hmapM : rankShards.mapM (rank_local_input (d0 :: rest) ws)
      = .ok (rankShards.map (localPad c)) :=
    mapM_ok_of_forall (rank_local_input (d0 :: rest) ws) (localPad c) rankShards
      (fun sl hmem =>
        rank_input_localPad d0 rest ws hd0 hws sl (hone sl hmem) (hsz sl hmem))
  have hlens : ∀ x ∈ rankShards.map (localPad c), x.length = c := by
    intro x hx
    rcases List.mem_map.1 hx with ⟨sl, hsl, heq⟩
    subst heq
    exact localPad_length c sl (hsz sl hsl)
  have hflatlen : (rankShards.map (localPad c)).flatten.length = c * ws := by
    rw [flatten_len_const c _ hlens, List.length_map, hcount]
  refine ⟨hmapM, hflatlen, ?_, ?_⟩
  · unfold gather_one
    simp only []
    rw [hmapM, chunk_size_code_cons d0 rest ws hd0 hws]
    simp only []
    have hall : ((rankShards.map (localPad c)).all
        (fun bf => decide (bf.length = c))) = true := by
      rw [List.all_eq_true]
      intro x hx
      simp [hlens x hx]
    rw [if_pos hall]
  · rw [List.length_take, hflatlen]
    have hle := prod_le_code_chunk_mul d0 rest ws hd0 hws
    rw [← hcdef] at hle
    omega

theorem claim_C5_gather_shape_witness :
    gather_one 2 ⟨[3], [[[1, 2]], []]⟩
      = .ok ((([[[1, 2]], []] : List (List Buf)).map
          (localPad (csize 3 2 * ([] : List ℕ).prod))).flatten.take
            (([3] : List ℕ).prod)) :=
  (claim_C5_gather_shape 3 [] 2 [[[1, 2]], []] (by decide) (by decide)
    (by decide) (by decide) (by decide)).2.2.1

/-- Claim C7 (confirmed): in the partitioned-mode restore loop, every
parameter name that is a shared alias is skipped, so the collective
all-gather is issued exactly for the non-shared names, in declaration
order: no gather is ever issued for a shared alias, and each non-shared
owned name (in particular the canonical name of any shared alias) gets
exactly one gather per conversion call. -/
theorem claim_C7_shared_skipped (shared : List String) (ws : ℕ)
    (pl : List (String × IncomingParam)) (shs : List (List ℕ)) (ts : List Buf)
    (gs : List String)
    (hloop : sharded_loop shared ws pl = .ok (shs, ts, gs))
    (hnd : (pl.map Prod.fst).Nodup) :
    gs = (pl.map Prod.fst).filter (fun f => !(shared.contains f))
      ∧ (∀ f ∈ shared, gs.count f = 0)
      ∧ (∀ f ∈ pl.map Prod.fst, f ∉ shared → gs.count f = 1) := by
  have hg := sharded_loop_gather_log shared ws pl shs ts gs hloop
  refine ⟨hg, ?_, ?_⟩
  · intro f hf
    rw [hg, List.count_eq_zero]
    intro hmem
    have hpred := (List.mem_filter.1 hmem).2
    have hcon : shared.contains f = true := List.elem_iff.2 hf
    rw [hcon] at hpred
    simp at hpred
  · intro f hf hns
    rw [hg]
    apply List.count_eq_one_of_mem (hnd.filter _)
    rw [List.mem_filter]
    refine ⟨hf, ?_⟩
    simp
    exact hns

theorem claim_C7_shared_skipped_witness :
    (["v"] : List String)
        = ([("v", (⟨[1], [[[5]]]⟩ : IncomingParam)), ("w", ⟨[1], [[[6]]]⟩)].map
            Prod.fst).filter (fun f => !((["w"] : List String).contains f))
      ∧ (∀ f ∈ (["w"] : List String), (["v"] : List String).count f = 0)
      ∧ (∀ f ∈ [("v", (⟨[1], [[[5]]]⟩ : IncomingParam)), ("w", ⟨[1], [[[6]]]⟩)].map
            Prod.fst, f ∉ (["w"] : List String) → (["v"] : List String).count f = 1) :=
  claim_C7_shared_skipped ["w"] 1
    [("v", ⟨[1], [[[5]]]⟩), ("w", ⟨[1], [[[6]]]⟩)]
    [[1]] [[5]] ["v"] rfl (by decide)

/-- Claim C8 (amended): the partitioned-mode restore fails with
`MultiShardUnsupported` whenever a parameter's pre-load transform yields
two or more local shards; the local-mode restore requires at least one
descriptor — it fails when none is supplied — but with more than one it
does not fail: it silently uses the first descriptor and ignores the
rest. -/
theorem claim_C8_shard_arity (shape : List ℕ) (ws : ℕ) (shards : List Buf)
    (s : ShardDesc) (rest : List ShardDesc) (full fn p : ℕ) :
    (2 ≤ shards.length →
      rank_local_input shape ws shards = .error .MultiShardUnsupported)
    ∧ local_pre_load_state_dict_hook ⟨[], full⟩ fn p = .error .NoShard
    ∧ local_pre_load_state_dict_hook ⟨s :: rest, full⟩ fn p
        = local_pre_load_state_dict_hook ⟨[s], full⟩ fn p := by
  refine ⟨?_, rfl, rfl⟩
  intro h2
  unfold rank_local_input
  rw [if_pos h2]

theorem claim_C8_shard_arity_witness :
    rank_local_input [4] 2 [[1, 2], [3, 4]] = .error .MultiShardUnsupported :=
  (claim_C8_shard_arity [4] 2 [[1, 2], [3, 4]] ⟨[], 0, 0⟩ [] 0 0 0).1 (by decide)

theorem claim_C8_shard_arity_counterexample :
    local_pre_load_state_dict_hook ⟨[⟨[1], 0, 0⟩, ⟨[2], 1, 1⟩], 2⟩ 1 0 = .ok [1] := rfl

/-- Characterization of the full-mode save on a rank that keeps its
entries (`noFsdpReturn` false): the hook succeeds, every owned parameter
entry holds its processed (cloned-or-kept) value, every owned parameter
key is present, and every other initially-present key except the popped
`FlatParameter` entry stays present. -/
theorem full_post_keep_char (m : FModule) (sd : SDict)
    (hno : noFsdpReturn m = false) (hp : m.has_params = true)
    (hne : sd.isEmpty = false)
    (hflat : m.use_orig_params = false → (sdGet sd FLAT_PARAM_KEY).isSome) :
    ∃ out, full_post_state_dict_hook m sd = .ok out
      ∧ (∀ f ∈ m.param_fqns, f ∉ m.buffer_names →
          sdGet out f = some (fullProcessed m f))
      ∧ (∀ f ∈ m.param_fqns, (sdGet out f).isSome)
      ∧ (∀ k, (sdGet sd k).isSome → k ≠ FLAT_PARAM_KEY → (sdGet out k).isSome) := by
  have hsd1 : ∃ sd1, (if m.use_orig_params = false then
        (if (sdGet sd FLAT_PARAM_KEY).isSome then .ok (sdPop sd FLAT_PARAM_KEY)
         else .error .KeyError) else .ok sd) = (.ok sd1 : Except HookErr SDict)
      ∧ (∀ k, k ≠ FLAT_PARAM_KEY → sdGet sd1 k = sdGet sd k) := by
    rcases Bool.dichotomy m.use_orig_params with huse | huse
    · refine ⟨sdPop sd FLAT_PARAM_KEY, ?_, ?_⟩
      · rw [if_pos huse, if_pos (hflat huse)]
      · intro k hk
        rw [sdGet_sdPop, if_neg hk]
    · refine ⟨sd, ?_, fun k _ => rfl⟩
      rw [if_neg (by simp [huse])]
  rcases hsd1 with ⟨sd1, hpop, hsd1k⟩
  unfold full_post_state_dict_hook common_summon_post_state_dict_hook
  rw [if_neg (by simp [hne, hp])]
  rw [hpop]
  simp only []
  rw [if_neg (show ¬ (noFsdpReturn m = true ∧ m.use_orig_params = false) from
    by simp [hno])]
  rw [params_foldlM_keep m hno m.param_fqns sd1]
  simp only []
  refine ⟨_, rfl, ?_, ?_, ?_⟩
  · intro f hf hnb
    rw [buffers_fold_get_other m m.buffer_names _ f hnb]
    rw [params_fold_keep_get m m.param_fqns sd1 f]
    rw [if_pos hf]
  · intro f hf
    apply buffers_fold_isSome_mono m hno
    rw [params_fold_keep_get m m.param_fqns sd1 f, if_pos hf]
    rfl
  · intro k hk hkf
    apply buffers_fold_isSome_mono m hno
    rw [params_fold_keep_get m m.param_fqns sd1 k]
    by_cases hkp : k ∈ m.param_fqns
    · rw [if_pos hkp]; rfl
    · rw [if_neg hkp, hsd1k k hkf]; exact hk

/-- Characterization of the full-mode save on a dropping rank
(`noFsdpReturn` true): the hook succeeds and every owned key — parameter
names, buffer names, and the `FlatParameter` entry — is absent from the
output. -/
theorem full_post_drop_char (m : FModule) (sd : SDict)
    (hno : noFsdpReturn m = true) (hp : m.has_params = true)
    (hne : sd.isEmpty = false) (hnd : m.param_fqns.Nodup)
    (hpres : m.use_orig_params = true → ∀ f ∈ m.param_fqns, (sdGet sd f).isSome)
    (hflat : m.use_orig_params = false → (sdGet sd FLAT_PARAM_KEY).isSome)
    (habs : m.use_orig_params = false → ∀ f ∈ m.param_fqns, sdGet sd f = none) :
    ∃ out, full_post_state_dict_hook m sd = .ok out
      ∧ (∀ f ∈ m.param_fqns, sdGet out f = none)
      ∧ (∀ n ∈ m.buffer_names, sdGet out n = none)
      ∧ (m.use_orig_params = false → sdGet out FLAT_PARAM_KEY = none) := by
  unfold full_post_state_dict_hook common_summon_post_state_dict_hook
  rw [if_neg (by simp [hne, hp])]
  rcases Bool.dichotomy m.use_orig_params with huse | huse
  · rw [if_pos huse, if_pos (hflat huse)]
    simp only []
    rw [if_pos ⟨hno, huse⟩]
    refine ⟨_, rfl, ?_, ?_, ?_⟩
    · intro f hf
      rw [pops_fold_get]
      by_cases hfb : f ∈ m.buffer_names
      · rw [if_pos hfb]
      · rw [if_neg hfb, sdGet_sdPop]
        by_cases hff : f = FLAT_PARAM_KEY
        · rw [if_pos hff]
        · rw [if_neg hff]
          exact habs huse f hf
    · intro n hn
      rw [pops_fold_get, if_pos hn]
    · intro _
      rw [pops_fold_get]
      by_cases hfb : FLAT_PARAM_KEY ∈ m.buffer_names
      · rw [if_pos hfb]
      · rw [if_neg hfb, sdGet_sdPop, if_pos rfl]
  · rw [if_neg (by simp [huse])]
    simp only []
    rw [if_neg (fun hc => by rw [huse] at hc; exact absurd hc.2 (by simp))]
    rcases params_foldlM_drop m (full_inner_hook m) hno m.param_fqns sd hnd
        (hpres huse) with ⟨out2, hout2, hchar⟩
    rw [hout2]
    simp only []
    refine ⟨_, rfl, ?_, ?_, ?_⟩
    · intro f hf
      rw [buffers_fold_drop_get m hno]
      by_cases hfb : f ∈ m.buffer_names
      · rw [if_pos hfb]
      · rw [if_neg hfb, hchar f, if_pos hf]
    · intro n hn
      rw [buffers_fold_drop_get m hno, if_pos hn]
    · intro hcon
      rw [huse] at hcon
      exact absurd hcon (by simp)

/-- Claim C6 (confirmed): for a full-mode save with `rank0_only` set, on
every rank other than 0 the returned output contains no entry for any
parameter or buffer name owned by this instance (nor the `FlatParameter`
entry), so it contains solely names not owned by this instance, while
rank 0's output retains all owned parameter entries and every
initially-present buffer entry. -/
theorem claim_C6_rank0_only_drop (m : FModule) (sd : SDict)
    (htype : m.state_dict_type = SDType.full) (hr0 : m.cfg_rank0_only = true)
    (hp : m.has_params = true) (hne : sd.isEmpty = false)
    (hnd : m.param_fqns.Nodup)
    (hpres : m.use_orig_params = true → ∀ f ∈ m.param_fqns, (sdGet sd f).isSome)
    (hflat : m.use_orig_params = false → (sdGet sd FLAT_PARAM_KEY).isSome)
    (habs : m.use_orig_params = false → ∀ f ∈ m.param_fqns, sdGet sd f = none) :
    (m.rank ≠ 0 →
      ∃ out, full_post_state_dict_hook m sd = .ok out
        ∧ (∀ f ∈ m.param_fqns, sdGet out f = none)
        ∧ (∀ n ∈ m.buffer_names, sdGet out n = none)
        ∧ (m.use_orig_params = false → sdGet out FLAT_PARAM_KEY = none))
    ∧ (m.rank = 0 →
      ∃ out, full_post_state_dict_hook m sd = .ok out
        ∧ (∀ f ∈ m.param_fqns, (sdGet out f).isSome)
        ∧ (∀ n ∈ m.buffer_names, (sdGet sd n).isSome → n ≠ FLAT_PARAM_KEY →
            (sdGet out n).isSome)) := by
  constructor
  · intro hr
    have hno : noFsdpReturn m = true := by
      unfold noFsdpReturn rank0Only
      rw [htype, hr0]
      simp [hr]
    exact full_post_drop_char m sd hno hp hne hnd hpres hflat habs
  · intro hr
    have hno : noFsdpReturn m = false := by
      unfold noFsdpReturn
      simp [hr]
    rcases full_post_keep_char m sd hno hp hne hflat with ⟨out, hout, _, hsome, hkeep⟩
    exact ⟨out, hout, hsome, fun n hn hs hnf => hkeep n hs hnf⟩

theorem claim_C6_rank0_only_drop_witness :
    (∃ out, full_post_state_dict_hook (mRank0Only 1)
        [("p", freshVal [1]), ("b", freshVal [2]), ("x", freshVal [3])] = .ok out
      ∧ (∀ f ∈ (mRank0Only 1).param_fqns, sdGet out f = none)
      ∧ (∀ n ∈ (mRank0Only 1).buffer_names, sdGet out n = none)
      ∧ ((mRank0Only 1).use_orig_params = false →
          sdGet out FLAT_PARAM_KEY = none)) :=
  (claim_C6_rank0_only_drop (mRank0Only 1)
    [("p", freshVal [1]), ("b", freshVal [2]), ("x", freshVal [3])]
    rfl rfl rfl rfl (by decide) (by decide) (by decide) (by decide)).1
    (by decide)

/-- Claim C9 (confirmed): during a full-mode save on a rank that keeps
its entries, every parameter entry whose clone raises is left as the
original un-cloned reference (the exception is caught and turned into a
warning), and the hook still completes successfully, processing every
other entry. -/
theorem claim_C9_clone_failure_nonfatal (m : FModule) (sd : SDict)
    (hno : noFsdpReturn m = false) (hp : m.has_params = true)
    (hne : sd.isEmpty = false)
    (hflat : m.use_orig_params = false → (sdGet sd FLAT_PARAM_KEY).isSome) :
    ∃ out, full_post_state_dict_hook m sd = .ok out
      ∧ (∀ f ∈ m.param_fqns, f ∉ m.buffer_names → (m.params f).clone_fails = true →
          sdGet out f = some (m.params f))
      ∧ (∀ f ∈ m.param_fqns, f ∉ m.buffer_names →
          sdGet out f = some (fullProcessed m f)) := by
  rcases full_post_keep_char m sd hno hp hne hflat with ⟨out, hout, hparam, _, _⟩
  refine ⟨out, hout, ?_, hparam⟩
  intro f hf hnb hfail
  rw [hparam f hf hnb]
  unfold fullProcessed
  simp only []
  by_cases hcond : ¬ (f ∈ m.ignored_param_names) ∧ (m.params f).has_been_cloned = false
  · rw [if_pos hcond, if_pos hfail]
  · rw [if_neg hcond]

theorem claim_C9_clone_failure_nonfatal_witness :
    ∃ out, full_post_state_dict_hook mCloneFails [("p", freshVal [1])] = .ok out
      ∧ (∀ f ∈ mCloneFails.param_fqns, f ∉ mCloneFails.buffer_names →
          (mCloneFails.params f).clone_fails = true →
          sdGet out f = some (mCloneFails.params f))
      ∧ (∀ f ∈ mCloneFails.param_fqns, f ∉ mCloneFails.buffer_names →
          sdGet out f = some (fullProcessed mCloneFails f)) :=
  claim_C9_clone_failure_nonfatal mCloneFails [("p", freshVal [1])]
    (by decide) rfl rfl (by decide)

/-- Claim C10 (confirmed): during a full-mode save on a rank that keeps
its entries, every parameter whose (cleaned) name is ignored skips the
cloning step entirely — its output entry is the un-cloned materialized
reference, with the cloned marker untouched — while every non-ignored,
not-yet-cloned parameter whose clone succeeds is replaced by a detached
clone marked as cloned. -/
theorem claim_C10_ignored_not_cloned (m : FModule) (sd : SDict)
    (hno : noFsdpReturn m = false) (hp : m.has_params = true)
    (hne : sd.isEmpty = false)
    (hflat : m.use_orig_params = false → (sdGet sd FLAT_PARAM_KEY).isSome) :
    ∃ out, full_post_state_dict_hook m sd = .ok out
      ∧ (∀ f ∈ m.param_fqns, f ∈ m.ignored_param_names → f ∉ m.buffer_names →
          sdGet out f = some (m.params f))
      ∧ (∀ f ∈ m.param_fqns, f ∉ m.ignored_param_names → f ∉ m.buffer_names →
          (m.params f).has_been_cloned = false → (m.params f).clone_fails = false →
          sdGet out f = some { data := (m.params f).data, has_been_cloned := true,
                               is_clone := true, clone_fails := false }) := by
  rcases full_post_keep_char m sd hno hp hne hflat with ⟨out, hout, hparam, _, _⟩
  refine ⟨out, hout, ?_, ?_⟩
  · intro f hf hig hnb
    rw [hparam f hf hnb]
    unfold fullProcessed
    simp only []
    rw [if_neg (fun hcon => hcon.1 hig)]
  · intro f hf hnig hnb hnc hok
    rw [hparam f hf hnb]
    unfold fullProcessed
    simp only []
    rw [if_pos ⟨hnig, hnc⟩, if_neg (by rw [hok]; simp)]
    unfold cloneDetach
    rw [hok]

theorem claim_C10_ignored_not_cloned_witness :
    ∃ out, full_post_state_dict_hook mIgnored
        [("p", freshVal [8]), ("q", freshVal [7])] = .ok out
      ∧ (∀ f ∈ mIgnored.param_fqns, f ∈ mIgnored.ignored_param_names →
          f ∉ mIgnored.buffer_names → sdGet out f = some (mIgnored.params f))
      ∧ (∀ f ∈ mIgnored.param_fqns, f ∉ mIgnored.ignored_param_names →
          f ∉ mIgnored.buffer_names →
          (mIgnored.params f).has_been_cloned = false →
          (mIgnored.params f).clone_fails = false →
          sdGet out f = some { data := (mIgnored.params f).data,
                               has_been_cloned := true, is_clone := true,
                               clone_fails := false }) :=
  claim_C10_ignored_not_cloned mIgnored [("p", freshVal [8]), ("q", freshVal [7])]
    (by decide) rfl rfl (by decide)

end FsdpStateDict
